import Mathlib

/-
Verification of the expression evaluators in src/eval_expr/src/main.rs and
src/misc/eval_expr/src/main.rs: a whitespace-skipping scanner producing
number/operator/parenthesis tokens, and a precedence-climbing parser that
evaluates while parsing.  The two files share their Token type, scanner and
arithmetic table; they differ in their error enums, in Token::is_operator,
and in the minimum precedence passed to the right-hand-side recursion
(src/misc consults an associativity table, src/eval_expr always uses
precedence + 1).
-/

/-- Tokens produced by the scanner (the Token enum, identical in both files). -/
inductive Token where
  | Number (n : Int)
  | Plus
  | Minus
  | Divide
  | Multiply
  | Power
  | LeftParen
  | RightParen
deriving DecidableEq

/-- Rust char::is_whitespace: the Unicode White_Space property, a fixed set of
25 code points. -/
def rust_is_whitespace (c : Char) : Bool :=
  let n := c.toNat
  (9 ≤ n && n ≤ 13) || n == 32 || n == 133 || n == 160 || n == 5760 ||
    (8192 ≤ n && n ≤ 8202) || n == 8232 || n == 8233 || n == 8239 ||
    n == 8287 || n == 12288

/-- Guard of the tokenizer's number branch.  Rust uses char::is_numeric; on the
ASCII fragment this development reasons about it coincides with is_digit(10),
and non-ASCII numeric characters are modeled as unknown characters. -/
def is_numeric (c : Char) : Bool := c.isDigit

/-- Tokenizer::scan_number: consume the maximal digit run, accumulating
value = value * 10 + digit.  The i32 accumulator is modeled on unbounded Int
(the spec leaves overflow behavior open). -/
def scan_number : List Char → Int → Int × List Char
  | [], num => (num, [])
  | c :: rest, num =>
    if c.isDigit then scan_number rest (num * 10 + ((c.toNat - 48 : Nat) : Int))
    else (num, c :: rest)

/-- Tokenizer::scan_operator: consume one character; known symbols become
operator or parenthesis tokens, anything else yields none. -/
def scan_operator (c : Char) : Option Token :=
  if c = '+' then some Token.Plus
  else if c = '-' then some Token.Minus
  else if c = '*' then some Token.Multiply
  else if c = '/' then some Token.Divide
  else if c = '^' then some Token.Power
  else if c = '(' then some Token.LeftParen
  else if c = ')' then some Token.RightParen
  else none

theorem scan_number_snd_length_le (cs : List Char) :
    ∀ num : Int, ((scan_number cs num).2).length ≤ cs.length := by
  induction cs with
  | nil => intro num; simp [scan_number]
  | cons c rest ih =>
    intro num
    by_cases h : c.isDigit
    · simp only [scan_number, h, if_true]
      exact Nat.le_succ_of_le (ih _)
    · simp [scan_number, h]

/-- The token sequence produced by repeatedly calling Tokenizer::next:
skip whitespace one character at a time; a digit starts a number token, a
known symbol becomes an operator token, and an unknown character is consumed
but produces no token, ending the sequence (the iterator returns None and the
parser's Peekable caches the end of stream). -/
def tokenize : List Char → List Token
  | [] => []
  | c :: rest =>
    if rust_is_whitespace c then tokenize rest
    else if hd : is_numeric c then
      Token.Number (scan_number (c :: rest) 0).1 :: tokenize (scan_number (c :: rest) 0).2
    else
      match scan_operator c with
      | some t => t :: tokenize rest
      | none => []
termination_by cs => cs.length
decreasing_by
  · simp
  · have h1 : ((scan_number (c :: rest) 0).2).length ≤ rest.length := by
      simp only [is_numeric] at hd
      simp only [scan_number, hd, if_true]
      exact scan_number_snd_length_le rest _
    simp only [List.length_cons]
    omega
  · simp

example : tokenize ("1 + 2".data) = [Token.Number 1, Token.Plus, Token.Number 2] := by
  simp [tokenize, scan_number, scan_operator, is_numeric, rust_is_whitespace]

/-- Token::precedence (identical in both files). -/
def Token.precedence : Token → Int
  | Token.Multiply | Token.Divide => 2
  | Token.Plus | Token.Minus => 1
  | Token.Power => 3
  | _ => 0

/-- Token::compute (identical in both files).  Rust i32 arithmetic is modeled
on unbounded Int (the spec leaves overflow open); / is Rust's truncating
division; the cast r as u32 in l.pow(r as u32) is modeled as reduction
mod 2^32. -/
def Token.compute : Token → Int → Int → Option Int
  | Token.Plus, l, r => some (l + r)
  | Token.Minus, l, r => some (l - r)
  | Token.Multiply, l, r => some (l * r)
  | Token.Divide, l, r => if r = 0 then none else some (Int.tdiv l r)
  | Token.Power, l, r => some (l ^ (r.emod (2 ^ 32)).toNat)
  | _, _, _ => none

namespace Misc

/-- The ExprError enum of src/misc/eval_expr. -/
inductive ExprError where
  | Parse (s : String)
  | DivisionByZero
  | InvalidNumber
deriving DecidableEq

def ASSOC_LEFT : Int := 0

def ASSOC_RIGHT : Int := 1

/-- Token::is_operator of src/misc: the five arithmetic operators only. -/
def is_operator : Token → Bool
  | Token.Plus | Token.Minus | Token.Multiply | Token.Divide | Token.Power => true
  | _ => false

/-- Token::assoc of src/misc: Power is right-associative, all else left. -/
def assoc : Token → Int
  | Token.Power => ASSOC_RIGHT
  | _ => ASSOC_LEFT

/-- The next_min_prec binding inside src/misc Expr::compute_expr. -/
def next_min_prec (op : Token) : Int :=
  if assoc op = ASSOC_LEFT then Token.precedence op + 1 else Token.precedence op

/-- Result of a parse step that consumes at least one token: the value and the
remaining tokens, a strictly shorter suffix of the input. -/
abbrev AtomRes (ts : List Token) :=
  {r : Int × List Token // r.2.length < ts.length ∧ r.2 <:+ ts}

/-- Result of the operator loop: the remaining tokens are a suffix of the
input (possibly all of it). -/
abbrev LoopRes (ts : List Token) :=
  {r : Int × List Token // r.2.length ≤ ts.length ∧ r.2 <:+ ts}

mutual

/-- Expr::compute_atom of src/misc: a Number yields its value; a LeftParen
evaluates a sub-expression at minimum precedence 1 and then requires a
RightParen; anything else (including end of input) is a parse error. -/
def compute_atom : (ts : List Token) → Except ExprError (AtomRes ts)
  | [] => Except.error (ExprError.Parse "Expected number or parenthesis")
  | Token.Number n :: rest =>
      Except.ok ⟨(n, rest), by
        exact ⟨by simp, List.suffix_cons _ _⟩⟩
  | Token.LeftParen :: rest =>
      match compute_expr 1 rest with
      | Except.error e => Except.error e
      | Except.ok ⟨(v, ts1), hp⟩ =>
          match ts1, hp with
          | Token.RightParen :: ts2, hp =>
              Except.ok ⟨(v, ts2), by
                refine ⟨by simp only [List.length_cons] at hp ⊢; omega, ?_⟩
                exact ((List.suffix_cons _ _).trans hp.2).trans (List.suffix_cons _ _)⟩
          | [], _ => Except.error (ExprError.Parse "Expected closing parenthesis")
          | Token.Number m :: ts2, _ =>
              Except.error (ExprError.Parse "Expected closing parenthesis")
          | Token.Plus :: ts2, _ =>
              Except.error (ExprError.Parse "Expected closing parenthesis")
          | Token.Minus :: ts2, _ =>
              Except.error (ExprError.Parse "Expected closing parenthesis")
          | Token.Divide :: ts2, _ =>
              Except.error (ExprError.Parse "Expected closing parenthesis")
          | Token.Multiply :: ts2, _ =>
              Except.error (ExprError.Parse "Expected closing parenthesis")
          | Token.Power :: ts2, _ =>
              Except.error (ExprError.Parse "Expected closing parenthesis")
          | Token.LeftParen :: ts2, _ =>
              Except.error (ExprError.Parse "Expected closing parenthesis")
  | Token.Plus :: _ => Except.error (ExprError.Parse "Expected number or parenthesis")
  | Token.Minus :: _ => Except.error (ExprError.Parse "Expected number or parenthesis")
  | Token.Divide :: _ => Except.error (ExprError.Parse "Expected number or parenthesis")
  | Token.Multiply :: _ => Except.error (ExprError.Parse "Expected number or parenthesis")
  | Token.Power :: _ => Except.error (ExprError.Parse "Expected number or parenthesis")
  | Token.RightParen :: _ => Except.error (ExprError.Parse "Expected number or parenthesis")
termination_by ts => (ts.length, 0)
decreasing_by
  · exact Prod.Lex.left _ _ (by simp only [List.length_cons]; omega)

/-- Expr::compute_expr of src/misc: an atom followed by the operator loop. -/
def compute_expr (min_prec : Int) (ts : List Token) : Except ExprError (AtomRes ts) :=
  match compute_atom ts with
  | Except.error e => Except.error e
  | Except.ok ⟨(lhs, ts1), h1⟩ =>
      match compute_loop min_prec lhs ts1 with
      | Except.error e => Except.error e
      | Except.ok ⟨r, h2⟩ =>
          Except.ok ⟨r, ⟨lt_of_le_of_lt h2.1 h1.1, h2.2.trans h1.2⟩⟩
termination_by (ts.length, 1)
decreasing_by
  · exact Prod.Lex.right _ (by omega)
  · exact Prod.Lex.left _ _ (by
      have hx : ts1.length < ts.length := h1.1
      omega)

/-- The while loop of src/misc Expr::compute_expr: stop at a non-operator or
an operator below min_prec; otherwise consume the operator, evaluate the
right-hand side at next_min_prec, and fold with Token::compute (a none result
becomes ExprError::InvalidNumber). -/
def compute_loop (min_prec : Int) (lhs : Int) :
    (ts : List Token) → Except ExprError (LoopRes ts)
  | [] => Except.ok ⟨(lhs, []), by simp⟩
  | tok :: rest =>
      if is_operator tok = false ∨ Token.precedence tok < min_prec then
        Except.ok ⟨(lhs, tok :: rest), ⟨le_refl _, List.suffix_refl _⟩⟩
      else
        match compute_expr (next_min_prec tok) rest with
        | Except.error e => Except.error e
        | Except.ok ⟨(rhs, ts2), h2⟩ =>
            match Token.compute tok lhs rhs with
            | some v =>
                match compute_loop min_prec v ts2 with
                | Except.error e => Except.error e
                | Except.ok ⟨r, h3⟩ =>
                    Except.ok ⟨r, by
                      refine ⟨?_, (h3.2.trans h2.2).trans (List.suffix_cons _ _)⟩
                      have ha : r.2.length ≤ ts2.length := h3.1
                      have hb : ts2.length < rest.length := h2.1
                      simp only [List.length_cons]
                      omega⟩
            | none => Except.error ExprError.InvalidNumber
termination_by ts => (ts.length, 2)
decreasing_by
  · exact Prod.Lex.left _ _ (by simp only [List.length_cons]; omega)
  · exact Prod.Lex.left _ _ (by
      have hx : ts2.length < rest.length := h2.1
      simp only [List.length_cons]
      omega)

end

/-- compute_atom with the consumption certificate erased. -/
def compute_atom_run (ts : List Token) : Except ExprError (Int × List Token) :=
  (compute_atom ts).map Subtype.val

/-- compute_expr with the consumption certificate erased. -/
def compute_expr_run (min_prec : Int) (ts : List Token) : Except ExprError (Int × List Token) :=
  (compute_expr min_prec ts).map Subtype.val

/-- The compute_expr while loop with the consumption certificate erased. -/
def compute_loop_run (min_prec lhs : Int) (ts : List Token) : Except ExprError (Int × List Token) :=
  (compute_loop min_prec lhs ts).map Subtype.val

/-- Expr::eval of src/misc: evaluate at minimum precedence 1; if tokens
remain, fail with a parse error. -/
def eval (src : String) : Except ExprError Int :=
  match compute_expr_run 1 (tokenize src.data) with
  | Except.error e => Except.error e
  | Except.ok (result, []) => Except.ok result
  | Except.ok (_, _ :: _) => Except.error (ExprError.Parse "Unexpected end of expression")

theorem compute_atom_run_nil :
    compute_atom_run [] = Except.error (ExprError.Parse "Expected number or parenthesis") := by
  simp [compute_atom_run, compute_atom, Except.map]

theorem compute_atom_run_number (n : Int) (rest : List Token) :
    compute_atom_run (Token.Number n :: rest) = Except.ok (n, rest) := by
  simp [compute_atom_run, compute_atom, Except.map]

theorem compute_atom_run_lparen (rest : List Token) :
    compute_atom_run (Token.LeftParen :: rest) =
      match compute_expr_run 1 rest with
      | Except.error e => Except.error e
      | Except.ok (v, Token.RightParen :: ts2) => Except.ok (v, ts2)
      | Except.ok (_, _) => Except.error (ExprError.Parse "Expected closing parenthesis") := by
  rcases h : compute_expr 1 rest with e | ⟨⟨v, ts1⟩, hp⟩
  · simp [compute_atom_run, compute_atom, compute_expr_run, h, Except.map]
  · simp only [compute_atom_run, compute_atom, compute_expr_run, h, Except.map]
    rcases ts1 with _ | ⟨tok, ts2⟩
    · simp
    · cases tok <;> simp

theorem compute_atom_run_plus (rest : List Token) :
    compute_atom_run (Token.Plus :: rest) =
      Except.error (ExprError.Parse "Expected number or parenthesis") := by
  simp [compute_atom_run, compute_atom, Except.map]

theorem compute_atom_run_minus (rest : List Token) :
    compute_atom_run (Token.Minus :: rest) =
      Except.error (ExprError.Parse "Expected number or parenthesis") := by
  simp [compute_atom_run, compute_atom, Except.map]

theorem compute_atom_run_mul (rest : List Token) :
    compute_atom_run (Token.Multiply :: rest) =
      Except.error (ExprError.Parse "Expected number or parenthesis") := by
  simp [compute_atom_run, compute_atom, Except.map]

theorem compute_atom_run_div (rest : List Token) :
    compute_atom_run (Token.Divide :: rest) =
      Except.error (ExprError.Parse "Expected number or parenthesis") := by
  simp [compute_atom_run, compute_atom, Except.map]

theorem compute_atom_run_pow (rest : List Token) :
    compute_atom_run (Token.Power :: rest) =
      Except.error (ExprError.Parse "Expected number or parenthesis") := by
  simp [compute_atom_run, compute_atom, Except.map]

theorem compute_atom_run_rparen (rest : List Token) :
    compute_atom_run (Token.RightParen :: rest) =
      Except.error (ExprError.Parse "Expected number or parenthesis") := by
  simp [compute_atom_run, compute_atom, Except.map]

theorem compute_expr_run_eq (min_prec : Int) (ts : List Token) :
    compute_expr_run min_prec ts =
      match compute_atom_run ts with
      | Except.error e => Except.error e
      | Except.ok (lhs, ts1) => compute_loop_run min_prec lhs ts1 := by
  rcases h : compute_atom ts with e | ⟨⟨lhs, ts1⟩, h1⟩
  · simp [compute_expr_run, compute_expr, compute_atom_run, h, Except.map]
  · simp only [compute_expr_run, compute_expr, compute_atom_run, h, Except.map]
    rcases h2 : compute_loop min_prec lhs ts1 with e | ⟨r, hr⟩ <;>
      simp [compute_loop_run, h2, Except.map]

theorem compute_loop_run_nil (min_prec lhs : Int) :
    compute_loop_run min_prec lhs [] = Except.ok (lhs, []) := by
  simp [compute_loop_run, compute_loop, Except.map]

theorem compute_loop_run_cons (min_prec lhs : Int) (tok : Token) (rest : List Token) :
    compute_loop_run min_prec lhs (tok :: rest) =
      if is_operator tok = false ∨ Token.precedence tok < min_prec then
        Except.ok (lhs, tok :: rest)
      else
        match compute_expr_run (next_min_prec tok) rest with
        | Except.error e => Except.error e
        | Except.ok (rhs, ts2) =>
            match Token.compute tok lhs rhs with
            | some v => compute_loop_run min_prec v ts2
            | none => Except.error ExprError.InvalidNumber := by
  by_cases hb : is_operator tok = false ∨ Token.precedence tok < min_prec
  · simp [compute_loop_run, compute_loop, hb, Except.map]
  · simp only [compute_loop_run, compute_loop, hb, if_false, Except.map]
    rcases h2 : compute_expr (next_min_prec tok) rest with e | ⟨⟨rhs, ts2⟩, hp⟩
    · simp [compute_expr_run, h2, Except.map]
    · simp only [compute_expr_run, h2, Except.map]
      rcases hc : Token.compute tok lhs rhs with _ | v
      · simp
      · rcases h3 : compute_loop min_prec v ts2 with e | ⟨r, hr⟩ <;> simp [h3, Except.map]

end Misc

namespace EvalExpr

/-- The ExprError enum of src/eval_expr: parse errors only. -/
inductive ExprError where
  | Parse (s : String)
deriving DecidableEq

/-- Token::is_operator of src/eval_expr: also counts both parentheses as
operators (their precedence 0 still stops the loop whenever min_prec >= 1). -/
def is_operator : Token → Bool
  | Token.Plus | Token.Minus | Token.Divide | Token.Multiply | Token.Power
  | Token.RightParen | Token.LeftParen => true
  | _ => false

/-- Per-step result: value plus remaining tokens, a strictly shorter suffix. -/
abbrev AtomRes (ts : List Token) :=
  {r : Int × List Token // r.2.length < ts.length ∧ r.2 <:+ ts}

/-- Loop result: remaining tokens are a suffix of the input. -/
abbrev LoopRes (ts : List Token) :=
  {r : Int × List Token // r.2.length ≤ ts.length ∧ r.2 <:+ ts}

mutual

/-- Expr::compute_atom of src/eval_expr (same text as the src/misc one). -/
def compute_atom : (ts : List Token) → Except ExprError (AtomRes ts)
  | [] => Except.error (ExprError.Parse "Expected number or parenthesis")
  | Token.Number n :: rest =>
      Except.ok ⟨(n, rest), by
        exact ⟨by simp, List.suffix_cons _ _⟩⟩
  | Token.LeftParen :: rest =>
      match compute_expr 1 rest with
      | Except.error e => Except.error e
      | Except.ok ⟨(v, ts1), hp⟩ =>
          match ts1, hp with
          | Token.RightParen :: ts2, hp =>
              Except.ok ⟨(v, ts2), by
                refine ⟨by simp only [List.length_cons] at hp ⊢; omega, ?_⟩
                exact ((List.suffix_cons _ _).trans hp.2).trans (List.suffix_cons _ _)⟩
          | [], _ => Except.error (ExprError.Parse "Expected closing parenthesis")
          | Token.Number m :: ts2, _ =>
              Except.error (ExprError.Parse "Expected closing parenthesis")
          | Token.Plus :: ts2, _ =>
              Except.error (ExprError.Parse "Expected closing parenthesis")
          | Token.Minus :: ts2, _ =>
              Except.error (ExprError.Parse "Expected closing parenthesis")
          | Token.Divide :: ts2, _ =>
              Except.error (ExprError.Parse "Expected closing parenthesis")
          | Token.Multiply :: ts2, _ =>
              Except.error (ExprError.Parse "Expected closing parenthesis")
          | Token.Power :: ts2, _ =>
              Except.error (ExprError.Parse "Expected closing parenthesis")
          | Token.LeftParen :: ts2, _ =>
              Except.error (ExprError.Parse "Expected closing parenthesis")
  | Token.Plus :: _ => Except.error (ExprError.Parse "Expected number or parenthesis")
  | Token.Minus :: _ => Except.error (ExprError.Parse "Expected number or parenthesis")
  | Token.Divide :: _ => Except.error (ExprError.Parse "Expected number or parenthesis")
  | Token.Multiply :: _ => Except.error (ExprError.Parse "Expected number or parenthesis")
  | Token.Power :: _ => Except.error (ExprError.Parse "Expected number or parenthesis")
  | Token.RightParen :: _ => Except.error (ExprError.Parse "Expected number or parenthesis")
termination_by ts => (ts.length, 0)
decreasing_by
  · exact Prod.Lex.left _ _ (by simp only [List.length_cons]; omega)

/-- Expr::compute_expr of src/eval_expr: an atom followed by the loop. -/
def compute_expr (min_prec : Int) (ts : List Token) : Except ExprError (AtomRes ts) :=
  match compute_atom ts with
  | Except.error e => Except.error e
  | Except.ok ⟨(lhs, ts1), h1⟩ =>
      match compute_loop min_prec lhs ts1 with
      | Except.error e => Except.error e
      | Except.ok ⟨r, h2⟩ =>
          Except.ok ⟨r, ⟨lt_of_le_of_lt h2.1 h1.1, h2.2.trans h1.2⟩⟩
termination_by (ts.length, 1)
decreasing_by
  · exact Prod.Lex.right _ (by omega)
  · exact Prod.Lex.left _ _ (by
      have hx : ts1.length < ts.length := h1.1
      omega)

/-- The while loop of src/eval_expr Expr::compute_expr: no associativity
table, the right-hand side is always evaluated at precedence(op) + 1, and a
none from Token::compute becomes Parse "Invalid operation". -/
def compute_loop (min_prec : Int) (lhs : Int) :
    (ts : List Token) → Except ExprError (LoopRes ts)
  | [] => Except.ok ⟨(lhs, []), by simp⟩
  | tok :: rest =>
      if is_operator tok = false ∨ Token.precedence tok < min_prec then
        Except.ok ⟨(lhs, tok :: rest), ⟨le_refl _, List.suffix_refl _⟩⟩
      else
        match compute_expr (Token.precedence tok + 1) rest with
        | Except.error e => Except.error e
        | Except.ok ⟨(rhs, ts2), h2⟩ =>
            match Token.compute tok lhs rhs with
            | some v =>
                match compute_loop min_prec v ts2 with
                | Except.error e => Except.error e
                | Except.ok ⟨r, h3⟩ =>
                    Except.ok ⟨r, by
                      refine ⟨?_, (h3.2.trans h2.2).trans (List.suffix_cons _ _)⟩
                      have ha : r.2.length ≤ ts2.length := h3.1
                      have hb : ts2.length < rest.length := h2.1
                      simp only [List.length_cons]
                      omega⟩
            | none => Except.error (ExprError.Parse "Invalid operation")
termination_by ts => (ts.length, 2)
decreasing_by
  · exact Prod.Lex.left _ _ (by simp only [List.length_cons]; omega)
  · exact Prod.Lex.left _ _ (by
      have hx : ts2.length < rest.length := h2.1
      simp only [List.length_cons]
      omega)

end

/-- compute_atom with the consumption certificate erased. -/
def compute_atom_run (ts : List Token) : Except ExprError (Int × List Token) :=
  (compute_atom ts).map Subtype.val

/-- compute_expr with the consumption certificate erased. -/
def compute_expr_run (min_prec : Int) (ts : List Token) : Except ExprError (Int × List Token) :=
  (compute_expr min_prec ts).map Subtype.val

/-- The compute_expr while loop with the consumption certificate erased. -/
def compute_loop_run (min_prec lhs : Int) (ts : List Token) : Except ExprError (Int × List Token) :=
  (compute_loop min_prec lhs ts).map Subtype.val

/-- Expr::eval of src/eval_expr: evaluate at minimum precedence 1; if tokens
remain, fail with a parse error (the debug print has no effect on the value). -/
def eval (src : String) : Except ExprError Int :=
  match compute_expr_run 1 (tokenize src.data) with
  | Except.error e => Except.error e
  | Except.ok (result, []) => Except.ok result
  | Except.ok (_, _ :: _) => Except.error (ExprError.Parse "Unexpected end of expression")

theorem ee_compute_atom_run_nil :
    compute_atom_run [] = Except.error (ExprError.Parse "Expected number or parenthesis") := by
  simp [compute_atom_run, compute_atom, Except.map]

theorem ee_compute_atom_run_number (n : Int) (rest : List Token) :
    compute_atom_run (Token.Number n :: rest) = Except.ok (n, rest) := by
  simp [compute_atom_run, compute_atom, Except.map]

theorem ee_compute_atom_run_lparen (rest : List Token) :
    compute_atom_run (Token.LeftParen :: rest) =
      match compute_expr_run 1 rest with
      | Except.error e => Except.error e
      | Except.ok (v, Token.RightParen :: ts2) => Except.ok (v, ts2)
      | Except.ok (_, _) => Except.error (ExprError.Parse "Expected closing parenthesis") := by
  rcases h : compute_expr 1 rest with e | ⟨⟨v, ts1⟩, hp⟩
  · simp [compute_atom_run, compute_atom, compute_expr_run, h, Except.map]
  · simp only [compute_atom_run, compute_atom, compute_expr_run, h, Except.map]
    rcases ts1 with _ | ⟨tok, ts2⟩
    · simp
    · cases tok <;> simp

theorem ee_compute_atom_run_plus (rest : List Token) :
    compute_atom_run (Token.Plus :: rest) =
      Except.error (ExprError.Parse "Expected number or parenthesis") := by
  simp [compute_atom_run, compute_atom, Except.map]

theorem ee_compute_atom_run_minus (rest : List Token) :
    compute_atom_run (Token.Minus :: rest) =
      Except.error (ExprError.Parse "Expected number or parenthesis") := by
  simp [compute_atom_run, compute_atom, Except.map]

theorem ee_compute_atom_run_mul (rest : List Token) :
    compute_atom_run (Token.Multiply :: rest) =
      Except.error (ExprError.Parse "Expected number or parenthesis") := by
  simp [compute_atom_run, compute_atom, Except.map]

theorem ee_compute_atom_run_div (rest : List Token) :
    compute_atom_run (Token.Divide :: rest) =
      Except.error (ExprError.Parse "Expected number or parenthesis") := by
  simp [compute_atom_run, compute_atom, Except.map]

theorem ee_compute_atom_run_pow (rest : List Token) :
    compute_atom_run (Token.Power :: rest) =
      Except.error (ExprError.Parse "Expected number or parenthesis") := by
  simp [compute_atom_run, compute_atom, Except.map]

theorem ee_compute_atom_run_rparen (rest : List Token) :
    compute_atom_run (Token.RightParen :: rest) =
      Except.error (ExprError.Parse "Expected number or parenthesis") := by
  simp [compute_atom_run, compute_atom, Except.map]

theorem ee_compute_expr_run_eq (min_prec : Int) (ts : List Token) :
    compute_expr_run min_prec ts =
      match compute_atom_run ts with
      | Except.error e => Except.error e
      | Except.ok (lhs, ts1) => compute_loop_run min_prec lhs ts1 := by
  rcases h : compute_atom ts with e | ⟨⟨lhs, ts1⟩, h1⟩
  · simp [compute_expr_run, compute_expr, compute_atom_run, h, Except.map]
  · simp only [compute_expr_run, compute_expr, compute_atom_run, h, Except.map]
    rcases h2 : compute_loop min_prec lhs ts1 with e | ⟨r, hr⟩ <;>
      simp [compute_loop_run, h2, Except.map]

theorem ee_compute_loop_run_nil (min_prec lhs : Int) :
    compute_loop_run min_prec lhs [] = Except.ok (lhs, []) := by
  simp [compute_loop_run, compute_loop, Except.map]

theorem ee_compute_loop_run_cons (min_prec lhs : Int) (tok : Token) (rest : List Token) :
    compute_loop_run min_prec lhs (tok :: rest) =
      if is_operator tok = false ∨ Token.precedence tok < min_prec then
        Except.ok (lhs, tok :: rest)
      else
        match compute_expr_run (Token.precedence tok + 1) rest with
        | Except.error e => Except.error e
        | Except.ok (rhs, ts2) =>
            match Token.compute tok lhs rhs with
            | some v => compute_loop_run min_prec v ts2
            | none => Except.error (ExprError.Parse "Invalid operation") := by
  by_cases hb : is_operator tok = false ∨ Token.precedence tok < min_prec
  · simp [compute_loop_run, compute_loop, hb, Except.map]
  · simp only [compute_loop_run, compute_loop, hb, if_false, Except.map]
    rcases h2 : compute_expr (Token.precedence tok + 1) rest with e | ⟨⟨rhs, ts2⟩, hp⟩
    · simp [compute_expr_run, h2, Except.map]
    · simp only [compute_expr_run, h2, Except.map]
      rcases hc : Token.compute tok lhs rhs with _ | v
      · simp
      · rcases h3 : compute_loop min_prec v ts2 with e | ⟨r, hr⟩ <;> simp [h3, Except.map]

end EvalExpr

attribute [simp] Misc.compute_atom_run_nil Misc.compute_atom_run_number
  Misc.compute_atom_run_lparen Misc.compute_atom_run_plus Misc.compute_atom_run_minus
  Misc.compute_atom_run_mul Misc.compute_atom_run_div Misc.compute_atom_run_pow
  Misc.compute_atom_run_rparen Misc.compute_expr_run_eq Misc.compute_loop_run_nil
  Misc.compute_loop_run_cons
  EvalExpr.ee_compute_atom_run_nil EvalExpr.ee_compute_atom_run_number
  EvalExpr.ee_compute_atom_run_lparen EvalExpr.ee_compute_atom_run_plus
  EvalExpr.ee_compute_atom_run_minus EvalExpr.ee_compute_atom_run_mul
  EvalExpr.ee_compute_atom_run_div EvalExpr.ee_compute_atom_run_pow
  EvalExpr.ee_compute_atom_run_rparen EvalExpr.ee_compute_expr_run_eq
  EvalExpr.ee_compute_loop_run_nil EvalExpr.ee_compute_loop_run_cons

example : Misc.eval "1 + 2 - 3" = Except.ok 0 := by
  simp [Misc.eval, Misc.is_operator, Misc.next_min_prec, Misc.assoc, Misc.ASSOC_LEFT,
    Misc.ASSOC_RIGHT, Token.precedence, Token.compute, tokenize, scan_number,
    scan_operator, is_numeric, rust_is_whitespace]

theorem string_mk_data (l : List Char) : (String.mk l).data = l := rfl

/-- C1 (amended): in src/misc/eval_expr the ^ operator is right-associative —
"2 ^ 3 ^ 2" evaluates to 512, and after consuming an operator the right-hand
side is entered at min precedence precedence(op) for ^ and precedence(op) + 1
for the left-associative + - * /; in src/eval_expr the right-hand side is
always entered at precedence(op) + 1, so there "2 ^ 3 ^ 2" evaluates to 64. -/
theorem power_right_assoc_misc_left_assoc_eval_expr :
    Misc.eval "2 ^ 3 ^ 2" = Except.ok 512 ∧
    EvalExpr.eval "2 ^ 3 ^ 2" = Except.ok 64 ∧
    Misc.next_min_prec Token.Power = Token.precedence Token.Power ∧
    Misc.next_min_prec Token.Plus = Token.precedence Token.Plus + 1 ∧
    Misc.next_min_prec Token.Minus = Token.precedence Token.Minus + 1 ∧
    Misc.next_min_prec Token.Multiply = Token.precedence Token.Multiply + 1 ∧
    Misc.next_min_prec Token.Divide = Token.precedence Token.Divide + 1 := by
  refine ⟨?_, ?_, by decide, by decide, by decide, by decide, by decide⟩
  · simp [Misc.eval, Misc.is_operator, Misc.next_min_prec, Misc.assoc, Misc.ASSOC_LEFT,
      Misc.ASSOC_RIGHT, Token.precedence, Token.compute, tokenize, scan_number,
      scan_operator, is_numeric, rust_is_whitespace] <;> decide
  · simp [EvalExpr.eval, EvalExpr.is_operator, Token.precedence, Token.compute, tokenize,
      scan_number, scan_operator, is_numeric, rust_is_whitespace] <;> decide

/-- C1 counterexample: in src/eval_expr/src/main.rs the top-level eval of
"2 ^ 3 ^ 2" returns 64, not the 512 the claim asserts, because that rewrite
enters every right-hand side at precedence(op) + 1. -/
theorem power_claim_fails_on_eval_expr :
    EvalExpr.eval "2 ^ 3 ^ 2" = Except.ok 64 ∧
    EvalExpr.eval "2 ^ 3 ^ 2" ≠ Except.ok 512 := by
  have h : EvalExpr.eval "2 ^ 3 ^ 2" = Except.ok 64 := by
    simp [EvalExpr.eval, EvalExpr.is_operator, Token.precedence, Token.compute, tokenize,
      scan_number, scan_operator, is_numeric, rust_is_whitespace] <;> decide
  refine ⟨h, ?_⟩
  rw [h]
  simp

/-- C2 counterexample: "5 $ 7" contains the unknown character $, yet both
evaluators succeed with 5 instead of failing with a Parse error — the scanner
consumes $ , yields no token, and ends the stream. -/
theorem unknown_char_input_succeeds :
    Misc.eval "5 $ 7" = Except.ok 5 ∧ EvalExpr.eval "5 $ 7" = Except.ok 5 := by
  constructor
  · simp [Misc.eval, Misc.is_operator, Misc.next_min_prec, Misc.assoc, Misc.ASSOC_LEFT,
      Misc.ASSOC_RIGHT, Token.precedence, Token.compute, tokenize, scan_number,
      scan_operator, is_numeric, rust_is_whitespace]
  · simp [EvalExpr.eval, EvalExpr.is_operator, Token.precedence, Token.compute, tokenize,
      scan_number, scan_operator, is_numeric, rust_is_whitespace]

/-- C2 (amended): the scanner does not report unknown characters; it consumes
the offending character, produces no token and ends the token stream, so
evaluation ignores everything from the first unknown character on —
"5 $ ..." always evaluates to 5 no matter what follows the $. -/
theorem unknown_char_truncates_stream :
    (∀ rest : List Char, tokenize ('$' :: rest) = []) ∧
    (∀ rest : List Char,
      Misc.eval (String.mk ('5' :: ' ' :: '$' :: rest)) = Except.ok 5) := by
  constructor
  · intro rest
    simp [tokenize, scan_operator, is_numeric, rust_is_whitespace]
  · intro rest
    simp [Misc.eval, string_mk_data, tokenize, scan_number, scan_operator,
      is_numeric, rust_is_whitespace]

/-- C3: on "1 + 2 / 0" the src/misc evaluator fails with
ExprError::InvalidNumber — not DivisionByZero, which is never constructed —
and the src/eval_expr evaluator fails with Parse "Invalid operation". -/
theorem div_by_zero_error_kind :
    Misc.eval "1 + 2 / 0" = Except.error Misc.ExprError.InvalidNumber ∧
    EvalExpr.eval "1 + 2 / 0" =
      Except.error (EvalExpr.ExprError.Parse "Invalid operation") := by
  constructor
  · simp [Misc.eval, Misc.is_operator, Misc.next_min_prec, Misc.assoc, Misc.ASSOC_LEFT,
      Misc.ASSOC_RIGHT, Token.precedence, Token.compute, tokenize, scan_number,
      scan_operator, is_numeric, rust_is_whitespace]
  · simp [EvalExpr.eval, EvalExpr.is_operator, Token.precedence, Token.compute, tokenize,
      scan_number, scan_operator, is_numeric, rust_is_whitespace]

/-- C4 counterexample: the two files are not equivalent — on "2 ^ 3 ^ 2" the
src/misc evaluator returns 512 while the src/eval_expr evaluator returns 64. -/
theorem rewrites_disagree_on_chained_power :
    Misc.eval "2 ^ 3 ^ 2" = Except.ok 512 ∧
    EvalExpr.eval "2 ^ 3 ^ 2" = Except.ok 64 ∧ (512 : Int) ≠ 64 := by
  refine ⟨?_, ?_, by decide⟩
  · simp [Misc.eval, Misc.is_operator, Misc.next_min_prec, Misc.assoc, Misc.ASSOC_LEFT,
      Misc.ASSOC_RIGHT, Token.precedence, Token.compute, tokenize, scan_number,
      scan_operator, is_numeric, rust_is_whitespace] <;> decide
  · simp [EvalExpr.eval, EvalExpr.is_operator, Token.precedence, Token.compute, tokenize,
      scan_number, scan_operator, is_numeric, rust_is_whitespace] <;> decide

/-- C5: the precedence table is * / = 2, + - = 1, ^ = 3, and both evaluators
give "1 + 2 * 3" = 7 and "1 + 2 * 3 - 4" = 3. -/
theorem precedence_table_and_examples :
    Token.precedence Token.Multiply = 2 ∧ Token.precedence Token.Divide = 2 ∧
    Token.precedence Token.Plus = 1 ∧ Token.precedence Token.Minus = 1 ∧
    Token.precedence Token.Power = 3 ∧
    Misc.eval "1 + 2 * 3" = Except.ok 7 ∧
    Misc.eval "1 + 2 * 3 - 4" = Except.ok 3 ∧
    EvalExpr.eval "1 + 2 * 3" = Except.ok 7 ∧
    EvalExpr.eval "1 + 2 * 3 - 4" = Except.ok 3 := by
  refine ⟨by decide, by decide, by decide, by decide, by decide, ?_, ?_, ?_, ?_⟩
  · simp [Misc.eval, Misc.is_operator, Misc.next_min_prec, Misc.assoc, Misc.ASSOC_LEFT,
      Misc.ASSOC_RIGHT, Token.precedence, Token.compute, tokenize, scan_number,
      scan_operator, is_numeric, rust_is_whitespace]
  · simp [Misc.eval, Misc.is_operator, Misc.next_min_prec, Misc.assoc, Misc.ASSOC_LEFT,
      Misc.ASSOC_RIGHT, Token.precedence, Token.compute, tokenize, scan_number,
      scan_operator, is_numeric, rust_is_whitespace]
  · simp [EvalExpr.eval, EvalExpr.is_operator, Token.precedence, Token.compute, tokenize,
      scan_number, scan_operator, is_numeric, rust_is_whitespace]
  · simp [EvalExpr.eval, EvalExpr.is_operator, Token.precedence, Token.compute, tokenize,
      scan_number, scan_operator, is_numeric, rust_is_whitespace]

/-- C7: after a LeftParen, atom parsing evaluates a sub-expression at minimum
precedence 1 and requires the next token to be RightParen; any other
remainder (including end of input) yields Parse "Expected closing
parenthesis", and concretely "(2 + 3" fails that way in both evaluators. -/
theorem lparen_requires_rparen :
    (∀ (rest : List Token) (v : Int) (ts1 : List Token),
        Misc.compute_expr_run 1 rest = Except.ok (v, ts1) →
        (∀ ts2 : List Token, ts1 ≠ Token.RightParen :: ts2) →
        Misc.compute_atom_run (Token.LeftParen :: rest) =
          Except.error (Misc.ExprError.Parse "Expected closing parenthesis")) ∧
    Misc.eval "(2 + 3" = Except.error (Misc.ExprError.Parse "Expected closing parenthesis") ∧
    EvalExpr.eval "(2 + 3" =
      Except.error (EvalExpr.ExprError.Parse "Expected closing parenthesis") := by
  refine ⟨?_, ?_, ?_⟩
  · intro rest v ts1 h hne
    rw [Misc.compute_atom_run_lparen, h]
    rcases ts1 with _ | ⟨tok, ts2⟩
    · rfl
    · cases tok
      case RightParen => exact absurd rfl (hne ts2)
      all_goals rfl
  · simp [Misc.eval, Misc.is_operator, Misc.next_min_prec, Misc.assoc, Misc.ASSOC_LEFT,
      Misc.ASSOC_RIGHT, Token.precedence, Token.compute, tokenize, scan_number,
      scan_operator, is_numeric, rust_is_whitespace]
  · simp [EvalExpr.eval, EvalExpr.is_operator, Token.precedence, Token.compute, tokenize,
      scan_number, scan_operator, is_numeric, rust_is_whitespace]

/-- Witness for C7: the hypotheses are satisfiable — for the token stream of
"(2 + 3" the sub-expression evaluates to 5 with nothing left, and the atom
fails with the closing-parenthesis parse error. -/
theorem lparen_requires_rparen_witness :
    Misc.compute_atom_run [Token.LeftParen, Token.Number 2, Token.Plus, Token.Number 3] =
      Except.error (Misc.ExprError.Parse "Expected closing parenthesis") :=
  lparen_requires_rparen.1 [Token.Number 2, Token.Plus, Token.Number 3] 5 []
    (by simp [Misc.is_operator, Misc.next_min_prec, Misc.assoc, Misc.ASSOC_LEFT,
      Misc.ASSOC_RIGHT, Token.precedence, Token.compute])
    (by intro ts2; simp)

/-- C8: whenever the top-level expression evaluation at minimum precedence 1
leaves unconsumed tokens, eval fails with a Parse error instead of returning
the leading value, in both evaluators. -/
theorem trailing_tokens_rejected :
    (∀ (s : String) (v : Int) (ts1 : List Token),
        Misc.compute_expr_run 1 (tokenize s.data) = Except.ok (v, ts1) → ts1 ≠ [] →
        Misc.eval s = Except.error (Misc.ExprError.Parse "Unexpected end of expression")) ∧
    (∀ (s : String) (v : Int) (ts1 : List Token),
        EvalExpr.compute_expr_run 1 (tokenize s.data) = Except.ok (v, ts1) → ts1 ≠ [] →
        EvalExpr.eval s =
          Except.error (EvalExpr.ExprError.Parse "Unexpected end of expression")) := by
  constructor
  · intro s v ts1 h hne
    unfold Misc.eval
    rw [h]
    rcases ts1 with _ | ⟨tok, ts2⟩
    · exact absurd rfl hne
    · rfl
  · intro s v ts1 h hne
    unfold EvalExpr.eval
    rw [h]
    rcases ts1 with _ | ⟨tok, ts2⟩
    · exact absurd rfl hne
    · rfl

/-- Witness for C8: "(2 + 3) 4" leaves the stray token 4 in the src/misc
evaluator and "2 + 3 )" leaves the stray ) in the src/eval_expr one; both
evals fail with the trailing-input parse error. -/
theorem trailing_tokens_rejected_witness :
    Misc.eval "(2 + 3) 4" = Except.error (Misc.ExprError.Parse "Unexpected end of expression") ∧
    EvalExpr.eval "2 + 3 )" =
      Except.error (EvalExpr.ExprError.Parse "Unexpected end of expression") := by
  constructor
  · refine trailing_tokens_rejected.1 "(2 + 3) 4" 5 [Token.Number 4] ?_ (by simp)
    simp [Misc.is_operator, Misc.next_min_prec, Misc.assoc, Misc.ASSOC_LEFT,
      Misc.ASSOC_RIGHT, Token.precedence, Token.compute, tokenize, scan_number,
      scan_operator, is_numeric, rust_is_whitespace]
  · refine trailing_tokens_rejected.2 "2 + 3 )" 5 [Token.RightParen] ?_ (by simp)
    simp [EvalExpr.is_operator, Token.precedence, Token.compute, tokenize, scan_number,
      scan_operator, is_numeric, rust_is_whitespace]

/-- C9: truncating division — for positive operands Token::compute for /
returns the floor quotient (truncation toward zero coincides with floor on
positives), and "1 + 2 / 2" evaluates to 2. -/
theorem division_truncates_toward_zero :
    (∀ l r : Int, 0 < l → 0 < r →
      ∃ q, Token.compute Token.Divide l r = some q ∧
        0 ≤ q ∧ q * r ≤ l ∧ l < (q + 1) * r) ∧
    Misc.eval "1 + 2 / 2" = Except.ok 2 := by
  constructor
  · intro l r hl hr
    refine ⟨l.tdiv r, ?_, ?_, ?_, ?_⟩
    · simp [Token.compute]
      omega
    · have : l.tdiv r = l / r := Int.tdiv_eq_ediv hl.le hr.le
      rw [this]
      exact Int.ediv_nonneg hl.le hr.le
    · have he : l.tdiv r = l / r := Int.tdiv_eq_ediv hl.le hr.le
      have h1 := Int.ediv_add_emod l r
      have h2 := Int.emod_nonneg l (ne_of_gt hr)
      rw [he, mul_comm]
      omega
    · have he : l.tdiv r = l / r := Int.tdiv_eq_ediv hl.le hr.le
      have h1 := Int.ediv_add_emod l r
      have h3 := Int.emod_lt_of_pos l hr
      rw [he, add_mul, one_mul, mul_comm]
      omega
  · simp [Misc.eval, Misc.is_operator, Misc.next_min_prec, Misc.assoc, Misc.ASSOC_LEFT,
      Misc.ASSOC_RIGHT, Token.precedence, Token.compute, tokenize, scan_number,
      scan_operator, is_numeric, rust_is_whitespace]

/-- Witness for C9 at l = 7, r = 2: the quotient is a value q with
q * 2 <= 7 < (q + 1) * 2, i.e. q = 3. -/
theorem division_truncates_toward_zero_witness :
    ∃ q, Token.compute Token.Divide 7 2 = some q ∧
      0 ≤ q ∧ q * 2 ≤ 7 ∧ (7 : Int) < (q + 1) * 2 :=
  division_truncates_toward_zero.1 7 2 (by decide) (by decide)

theorem tokenize_dropWhile (cs : List Char) :
    tokenize cs = tokenize (cs.dropWhile rust_is_whitespace) := by
  induction cs with
  | nil => rfl
  | cons c rest ih =>
    by_cases h : rust_is_whitespace c
    · rw [List.dropWhile_cons_of_pos h, ← ih]
      simp only [tokenize, h, if_true]
    · rw [List.dropWhile_cons_of_neg h]

theorem tokenize_minus_head (rest : List Char) :
    tokenize ('-' :: rest) = Token.Minus :: tokenize rest := by
  simp [tokenize, scan_operator, is_numeric, rust_is_whitespace]

theorem scan_number_fst_nonneg (cs : List Char) :
    ∀ num : Int, 0 ≤ num → 0 ≤ (scan_number cs num).1 := by
  induction cs with
  | nil => intro num h; simpa [scan_number] using h
  | cons c rest ih =>
    intro num h
    by_cases hc : c.isDigit
    · simp only [scan_number, hc, if_true]
      exact ih _ (by positivity)
    · simpa [scan_number, hc] using h

theorem scan_operator_not_number (c : Char) (t : Token) (n : Int) :
    scan_operator c = some t → t ≠ Token.Number n := by
  unfold scan_operator
  split_ifs <;> intro h <;> simp at h <;> simp [← h]

theorem tokenize_number_nonneg :
    ∀ (N : Nat) (cs : List Char), cs.length ≤ N →
      ∀ n : Int, Token.Number n ∈ tokenize cs → 0 ≤ n := by
  intro N
  induction N with
  | zero =>
    intro cs hlen n hmem
    rcases cs with _ | ⟨c, rest⟩
    · simp [tokenize] at hmem
    · simp at hlen
  | succ N ih =>
    intro cs hlen n hmem
    rcases cs with _ | ⟨c, rest⟩
    · simp [tokenize] at hmem
    · simp only [List.length_cons] at hlen
      by_cases hw : rust_is_whitespace c
      · rw [show tokenize (c :: rest) = tokenize rest by
          simp only [tokenize, hw, if_true]] at hmem
        exact ih rest (by omega) n hmem
      · by_cases hnum : is_numeric c
        · have hsn : scan_number (c :: rest) 0 =
              scan_number rest ((0 : Int) * 10 + ((c.toNat - 48 : Nat) : Int)) := by
            simp only [is_numeric] at hnum
            simp only [scan_number, hnum, if_true]
          rw [show tokenize (c :: rest) =
              Token.Number (scan_number (c :: rest) 0).1 ::
                tokenize (scan_number (c :: rest) 0).2 by
            simp only [tokenize, hw, hnum, if_false, dif_pos]
            simp] at hmem
          rcases List.mem_cons.mp hmem with heq | htail
          · have hq : n = (scan_number (c :: rest) 0).1 := by
              injection heq
            rw [hq]
            exact scan_number_fst_nonneg _ 0 le_rfl
          · have hlen2 : ((scan_number (c :: rest) 0).2).length ≤ N := by
              rw [hsn]
              have := scan_number_snd_length_le rest
                ((0 : Int) * 10 + ((c.toNat - 48 : Nat) : Int))
              omega
            exact ih _ hlen2 n htail
        · rcases hop : scan_operator c with _ | t
          · rw [show tokenize (c :: rest) = [] by
              simp only [tokenize, hw, hnum, if_false, dif_neg, hop]
              simp] at hmem
            simp at hmem
          · rw [show tokenize (c :: rest) = t :: tokenize rest by
              simp only [tokenize, hw, hnum, if_false, dif_neg, hop]
              simp] at hmem
            rcases List.mem_cons.mp hmem with heq | htail
            · exact absurd heq.symm (scan_operator_not_number c t n hop)
            · exact ih rest (by omega) n htail

/-- C10: unary minus is not supported — an input whose first non-whitespace
character is '-' fails in both evaluators with Parse "Expected number or
parenthesis"; a Minus token where an atom is expected always produces that
error; and every Number token the scanner emits carries a non-negative
value. -/
theorem unary_minus_unsupported :
    (∀ (s : String) (rest : List Char),
        s.data.dropWhile rust_is_whitespace = '-' :: rest →
        Misc.eval s = Except.error (Misc.ExprError.Parse "Expected number or parenthesis") ∧
        EvalExpr.eval s =
          Except.error (EvalExpr.ExprError.Parse "Expected number or parenthesis")) ∧
    (∀ ts : List Token,
        Misc.compute_atom_run (Token.Minus :: ts) =
          Except.error (Misc.ExprError.Parse "Expected number or parenthesis")) ∧
    (∀ (s : String) (n : Int), Token.Number n ∈ tokenize s.data → 0 ≤ n) := by
  refine ⟨?_, ?_, ?_⟩
  · intro s rest h
    have ht : tokenize s.data = Token.Minus :: tokenize rest := by
      rw [tokenize_dropWhile, h, tokenize_minus_head]
    constructor
    · unfold Misc.eval
      rw [ht, Misc.compute_expr_run_eq, Misc.compute_atom_run_minus]
    · unfold EvalExpr.eval
      rw [ht, EvalExpr.ee_compute_expr_run_eq, EvalExpr.ee_compute_atom_run_minus]
  · intro ts
    exact Misc.compute_atom_run_minus ts
  · intro s n hmem
    exact tokenize_number_nonneg s.data.length s.data le_rfl n hmem

/-- Witness for C10 at the input "-5": its first non-whitespace character is
'-', and both evaluators reject it with the atom parse error. -/
theorem unary_minus_unsupported_witness :
    Misc.eval "-5" = Except.error (Misc.ExprError.Parse "Expected number or parenthesis") ∧
    EvalExpr.eval "-5" =
      Except.error (EvalExpr.ExprError.Parse "Expected number or parenthesis") :=
  unary_minus_unsupported.1 "-5" ['5'] (by simp [rust_is_whitespace])

theorem misc_compute_atom_run_ok (ts : List Token) (v : Int) (rest : List Token)
    (h : Misc.compute_atom_run ts = Except.ok (v, rest)) :
    rest.length < ts.length ∧ rest <:+ ts := by
  unfold Misc.compute_atom_run at h
  rcases ha : Misc.compute_atom ts with e | ⟨⟨v0, rest0⟩, hp⟩
  · rw [ha] at h
    simp [Except.map] at h
  · rw [ha] at h
    simp only [Except.map, Except.ok.injEq] at h
    have h1 : v0 = v := by
      have := congrArg Prod.fst h
      simpa using this
    have h2 : rest0 = rest := by
      have := congrArg Prod.snd h
      simpa using this
    subst h2
    exact hp

theorem misc_compute_expr_run_ok (mp : Int) (ts : List Token) (v : Int) (rest : List Token)
    (h : Misc.compute_expr_run mp ts = Except.ok (v, rest)) :
    rest.length < ts.length ∧ rest <:+ ts := by
  unfold Misc.compute_expr_run at h
  rcases ha : Misc.compute_expr mp ts with e | ⟨⟨v0, rest0⟩, hp⟩
  · rw [ha] at h
    simp [Except.map] at h
  · rw [ha] at h
    simp only [Except.map, Except.ok.injEq] at h
    have h2 : rest0 = rest := by
      have := congrArg Prod.snd h
      simpa using this
    subst h2
    exact hp

/-- Outcome agreement between the two error universes: same value on success,
any error matches any error, success never matches failure. -/
def agreeStep : Except EvalExpr.ExprError (Int × List Token) →
    Except Misc.ExprError (Int × List Token) → Prop
  | Except.ok a, Except.ok b => a = b
  | Except.error _, Except.error _ => True
  | _, _ => False

/-- Same-outcome relation for the two top-level eval results. -/
def sameOutcome : Except EvalExpr.ExprError Int → Except Misc.ExprError Int → Prop
  | Except.ok a, Except.ok b => a = b
  | Except.error _, Except.error _ => True
  | _, _ => False

theorem agree_all (N : Nat) :
    (∀ ts : List Token, ts.length ≤ N → Token.Power ∉ ts →
      agreeStep (EvalExpr.compute_atom_run ts) (Misc.compute_atom_run ts)) ∧
    (∀ (mp : Int) (ts : List Token), 1 ≤ mp → ts.length ≤ N → Token.Power ∉ ts →
      agreeStep (EvalExpr.compute_expr_run mp ts) (Misc.compute_expr_run mp ts)) ∧
    (∀ (mp lhs : Int) (ts : List Token), 1 ≤ mp → ts.length ≤ N → Token.Power ∉ ts →
      agreeStep (EvalExpr.compute_loop_run mp lhs ts) (Misc.compute_loop_run mp lhs ts)) := by
  induction N with
  | zero =>
    refine ⟨?_, ?_, ?_⟩
    · intro ts hlen _
      rcases ts with _ | ⟨t, ts⟩
      · simp [agreeStep, EvalExpr.ee_compute_atom_run_nil, Misc.compute_atom_run_nil]
      · simp at hlen
    · intro mp ts _ hlen _
      rcases ts with _ | ⟨t, ts⟩
      · rw [EvalExpr.ee_compute_expr_run_eq, Misc.compute_expr_run_eq]
        simp [agreeStep, EvalExpr.ee_compute_atom_run_nil, Misc.compute_atom_run_nil]
      · simp at hlen
    · intro mp lhs ts _ hlen _
      rcases ts with _ | ⟨t, ts⟩
      · simp [agreeStep, EvalExpr.ee_compute_loop_run_nil, Misc.compute_loop_run_nil]
      · simp at hlen
  | succ N ih =>
    obtain ⟨ihA, ihE, ihL⟩ := ih
    have hA : ∀ ts : List Token, ts.length ≤ N + 1 → Token.Power ∉ ts →
        agreeStep (EvalExpr.compute_atom_run ts) (Misc.compute_atom_run ts) := by
      intro ts hlen hpow
      rcases ts with _ | ⟨tok, rest⟩
      · simp [agreeStep, EvalExpr.ee_compute_atom_run_nil, Misc.compute_atom_run_nil]
      · have hrestlen : rest.length ≤ N := by
          simp only [List.length_cons] at hlen
          omega
        have hnp : Token.Power ∉ rest := fun hm => hpow (List.mem_cons_of_mem _ hm)
        cases tok with
        | Number n =>
            simp [agreeStep, EvalExpr.ee_compute_atom_run_number, Misc.compute_atom_run_number]
        | LeftParen =>
            rw [EvalExpr.ee_compute_atom_run_lparen, Misc.compute_atom_run_lparen]
            have hrec := ihE 1 rest le_rfl hrestlen hnp
            revert hrec
            cases hE : EvalExpr.compute_expr_run 1 rest with
            | error e =>
                cases hM : Misc.compute_expr_run 1 rest with
                | error e2 => intro _; simp [agreeStep]
                | ok b => intro hf; simp [agreeStep] at hf
            | ok a =>
                cases hM : Misc.compute_expr_run 1 rest with
                | error e2 => intro hf; simp [agreeStep] at hf
                | ok b =>
                    intro hab
                    have hab' : a = b := by simpa [agreeStep] using hab
                    subst hab'
                    rcases a with ⟨v, ts1⟩
                    rcases ts1 with _ | ⟨tok2, ts2⟩
                    · simp [agreeStep]
                    · cases tok2 <;> simp [agreeStep]
        | Plus =>
            simp [agreeStep, EvalExpr.ee_compute_atom_run_plus, Misc.compute_atom_run_plus]
        | Minus =>
            simp [agreeStep, EvalExpr.ee_compute_atom_run_minus, Misc.compute_atom_run_minus]
        | Multiply =>
            simp [agreeStep, EvalExpr.ee_compute_atom_run_mul, Misc.compute_atom_run_mul]
        | Divide =>
            simp [agreeStep, EvalExpr.ee_compute_atom_run_div, Misc.compute_atom_run_div]
        | Power => exact absurd (List.mem_cons_self _ _) hpow
        | RightParen =>
            simp [agreeStep, EvalExpr.ee_compute_atom_run_rparen, Misc.compute_atom_run_rparen]
    have hEx : ∀ (mp : Int) (ts : List Token), 1 ≤ mp → ts.length ≤ N + 1 →
        Token.Power ∉ ts →
        agreeStep (EvalExpr.compute_expr_run mp ts) (Misc.compute_expr_run mp ts) := by
      intro mp ts hmp hlen hpow
      rw [EvalExpr.ee_compute_expr_run_eq, Misc.compute_expr_run_eq]
      have hatom := hA ts hlen hpow
      revert hatom
      cases hE : EvalExpr.compute_atom_run ts with
      | error e =>
          cases hM : Misc.compute_atom_run ts with
          | error e2 => intro _; simp [agreeStep]
          | ok b => intro hf; simp [agreeStep] at hf
      | ok a =>
          cases hM : Misc.compute_atom_run ts with
          | error e2 => intro hf; simp [agreeStep] at hf
          | ok b =>
              intro hab
              have hab' : a = b := by simpa [agreeStep] using hab
              subst hab'
              rcases a with ⟨lhs, ts1⟩
              have hb := misc_compute_atom_run_ok ts lhs ts1 hM
              exact ihL mp lhs ts1 hmp (by have := hb.1; omega)
                (fun hm => hpow (hb.2.sublist.subset hm))
    have hL : ∀ (mp lhs : Int) (ts : List Token), 1 ≤ mp → ts.length ≤ N + 1 →
        Token.Power ∉ ts →
        agreeStep (EvalExpr.compute_loop_run mp lhs ts) (Misc.compute_loop_run mp lhs ts) := by
      intro mp lhs ts hmp hlen hpow
      rcases ts with _ | ⟨tok, rest⟩
      · simp [agreeStep, EvalExpr.ee_compute_loop_run_nil, Misc.compute_loop_run_nil]
      · have hrestlen : rest.length ≤ N := by
          simp only [List.length_cons] at hlen
          omega
        have hnp : Token.Power ∉ rest := fun hm => hpow (List.mem_cons_of_mem _ hm)
        have htokne : tok ≠ Token.Power := fun he => hpow (he ▸ List.mem_cons_self _ _)
        rw [EvalExpr.ee_compute_loop_run_cons, Misc.compute_loop_run_cons]
        by_cases hstop : Misc.is_operator tok = false ∨ Token.precedence tok < mp
        · have hstopE : EvalExpr.is_operator tok = false ∨ Token.precedence tok < mp := by
            cases tok with
            | Number n => exact Or.inl rfl
            | LeftParen => exact Or.inr (by simp [Token.precedence]; omega)
            | RightParen => exact Or.inr (by simp [Token.precedence]; omega)
            | Power => exact absurd rfl htokne
            | Plus =>
                rcases hstop with hs | hs
                · exact absurd hs (by simp [Misc.is_operator])
                · exact Or.inr hs
            | Minus =>
                rcases hstop with hs | hs
                · exact absurd hs (by simp [Misc.is_operator])
                · exact Or.inr hs
            | Multiply =>
                rcases hstop with hs | hs
                · exact absurd hs (by simp [Misc.is_operator])
                · exact Or.inr hs
            | Divide =>
                rcases hstop with hs | hs
                · exact absurd hs (by simp [Misc.is_operator])
                · exact Or.inr hs
          rw [if_pos hstopE, if_pos hstop]
          simp [agreeStep]
        · have hstopE : ¬(EvalExpr.is_operator tok = false ∨ Token.precedence tok < mp) := by
            cases tok with
            | Number n => exact absurd (Or.inl rfl) hstop
            | LeftParen => exact absurd (Or.inl rfl) hstop
            | RightParen => exact absurd (Or.inl rfl) hstop
            | Power => exact absurd rfl htokne
            | Plus =>
                intro hc
                rcases hc with hc | hc
                · simp [EvalExpr.is_operator] at hc
                · exact hstop (Or.inr hc)
            | Minus =>
                intro hc
                rcases hc with hc | hc
                · simp [EvalExpr.is_operator] at hc
                · exact hstop (Or.inr hc)
            | Multiply =>
                intro hc
                rcases hc with hc | hc
                · simp [EvalExpr.is_operator] at hc
                · exact hstop (Or.inr hc)
            | Divide =>
                intro hc
                rcases hc with hc | hc
                · simp [EvalExpr.is_operator] at hc
                · exact hstop (Or.inr hc)
          rw [if_neg hstopE, if_neg hstop]
          have hnmp : Misc.next_min_prec tok = Token.precedence tok + 1 := by
            cases tok with
            | Power => exact absurd rfl htokne
            | Number n => rfl
            | Plus => rfl
            | Minus => rfl
            | Multiply => rfl
            | Divide => rfl
            | LeftParen => rfl
            | RightParen => rfl
          rw [hnmp]
          have hone : 1 ≤ Token.precedence tok + 1 := by
            have : (0 : Int) ≤ Token.precedence tok := by
              cases tok <;> simp [Token.precedence]
            omega
          have hrec := ihE (Token.precedence tok + 1) rest hone hrestlen hnp
          revert hrec
          cases hE : EvalExpr.compute_expr_run (Token.precedence tok + 1) rest with
          | error e =>
              cases hM : Misc.compute_expr_run (Token.precedence tok + 1) rest with
              | error e2 => intro _; simp [agreeStep]
              | ok b => intro hf; simp [agreeStep] at hf
          | ok a =>
              cases hM : Misc.compute_expr_run (Token.precedence tok + 1) rest with
              | error e2 => intro hf; simp [agreeStep] at hf
              | ok b =>
                  intro hab
                  have hab' : a = b := by simpa [agreeStep] using hab
                  subst hab'
                  rcases a with ⟨rhs, ts2⟩
                  have hb := misc_compute_expr_run_ok (Token.precedence tok + 1) rest rhs ts2 hM
                  cases hcomp : Token.compute tok lhs rhs with
                  | none => simp [agreeStep, hcomp]
                  | some v =>
                      simp only [hcomp]
                      exact ihL mp v ts2 hmp
                        (by have := hb.1; simp only [List.length_cons] at hlen; omega)
                        (fun hm => hnp (hb.2.sublist.subset hm))
    exact ⟨hA, hEx, hL⟩

/-- Without any Power token the two rewrites compute identically: same value
on success, and they fail together (though with different error payloads). -/
theorem eval_agree_no_power (s : String) (h : Token.Power ∉ tokenize s.data) :
    sameOutcome (EvalExpr.eval s) (Misc.eval s) := by
  have hrec := (agree_all (tokenize s.data).length).2.1 1 (tokenize s.data) le_rfl le_rfl h
  unfold EvalExpr.eval Misc.eval
  revert hrec
  cases hE : EvalExpr.compute_expr_run 1 (tokenize s.data) with
  | error e =>
      cases hM : Misc.compute_expr_run 1 (tokenize s.data) with
      | error e2 => intro _; simp [sameOutcome]
      | ok b => intro hf; simp [agreeStep] at hf
  | ok a =>
      cases hM : Misc.compute_expr_run 1 (tokenize s.data) with
      | error e2 => intro hf; simp [agreeStep] at hf
      | ok b =>
          intro hab
          have hab' : a = b := by simpa [agreeStep] using hab
          subst hab'
          rcases a with ⟨v, ts1⟩
          rcases ts1 with _ | ⟨tok, ts2⟩
          · simp [sameOutcome]
          · simp [sameOutcome]

/-- C4 (amended): on every input containing no ^ token the two files compute
the same outcome — equal integers on success and failure together; chained ^
separates them ("2 ^ 3 ^ 2": 512 vs 64). -/
theorem rewrites_agree_without_power :
    ∀ s : String, Token.Power ∉ tokenize s.data →
      sameOutcome (EvalExpr.eval s) (Misc.eval s) :=
  fun s h => eval_agree_no_power s h

/-- Witness for C4 (amended) at "1 + 2 * 3", whose token stream has no ^. -/
theorem rewrites_agree_without_power_witness :
    sameOutcome (EvalExpr.eval "1 + 2 * 3") (Misc.eval "1 + 2 * 3") :=
  rewrites_agree_without_power "1 + 2 * 3" (by
    simp [tokenize, scan_number, scan_operator, is_numeric, rust_is_whitespace])

/-- Tokens of a plus/minus chain continuation: operator then number, repeatedly. -/
def chain_tail : List (Token × Int) → List Token
  | [] => []
  | p :: tl => p.1 :: Token.Number p.2 :: chain_tail tl

/-- Left-to-right accumulation of a plus/minus chain over an accumulator. -/
def chain_value : Int → List (Token × Int) → Int
  | acc, [] => acc
  | acc, p :: tl => chain_value (if p.1 = Token.Plus then acc + p.2 else acc - p.2) tl

theorem chain_tail_no_power (ps : List (Token × Int))
    (h : ∀ p ∈ ps, p.1 = Token.Plus ∨ p.1 = Token.Minus) :
    Token.Power ∉ chain_tail ps := by
  induction ps with
  | nil => simp [chain_tail]
  | cons p tl ih =>
    have htl : ∀ q ∈ tl, q.1 = Token.Plus ∨ q.1 = Token.Minus :=
      fun q hq => h q (List.mem_cons_of_mem _ hq)
    rcases h p (List.mem_cons_self _ _) with hp | hp <;>
      simp [chain_tail, hp, ih htl]

theorem misc_loop2_break (tl : List (Token × Int)) (m : Int)
    (h : ∀ p ∈ tl, p.1 = Token.Plus ∨ p.1 = Token.Minus) :
    Misc.compute_loop_run 2 m (chain_tail tl) = Except.ok (m, chain_tail tl) := by
  rcases tl with _ | ⟨q, tl2⟩
  · simp [chain_tail, Misc.compute_loop_run_nil]
  · rcases h q (List.mem_cons_self _ _) with hq | hq <;>
      simp [chain_tail, Misc.compute_loop_run_cons, hq, Misc.is_operator, Token.precedence]

theorem misc_loop_chain (ps : List (Token × Int)) :
    ∀ acc : Int, (∀ p ∈ ps, p.1 = Token.Plus ∨ p.1 = Token.Minus) →
      Misc.compute_loop_run 1 acc (chain_tail ps) =
        Except.ok (chain_value acc ps, []) := by
  induction ps with
  | nil =>
    intro acc _
    simp [chain_tail, chain_value, Misc.compute_loop_run_nil]
  | cons p tl ih =>
    intro acc h
    have htl : ∀ q ∈ tl, q.1 = Token.Plus ∨ q.1 = Token.Minus :=
      fun q hq => h q (List.mem_cons_of_mem _ hq)
    have hexprP : ∀ m : Int, Misc.compute_expr_run 2 (Token.Number m :: chain_tail tl) =
        Except.ok (m, chain_tail tl) := by
      intro m
      rw [Misc.compute_expr_run_eq, Misc.compute_atom_run_number]
      exact misc_loop2_break tl m htl
    rcases h p (List.mem_cons_self _ _) with hp | hp
    · simp only [chain_tail]
      rw [Misc.compute_loop_run_cons, hp]
      rw [if_neg (by simp [Misc.is_operator, Token.precedence])]
      have hnm : Misc.next_min_prec Token.Plus = 2 := rfl
      rw [hnm, hexprP p.2]
      show Misc.compute_loop_run 1 (acc + p.2) (chain_tail tl) =
        Except.ok (chain_value acc (p :: tl), [])
      rw [ih (acc + p.2) htl]
      simp [chain_value, hp]
    · simp only [chain_tail]
      rw [Misc.compute_loop_run_cons, hp]
      rw [if_neg (by simp [Misc.is_operator, Token.precedence])]
      have hnm : Misc.next_min_prec Token.Minus = 2 := rfl
      rw [hnm, hexprP p.2]
      show Misc.compute_loop_run 1 (acc - p.2) (chain_tail tl) =
        Except.ok (chain_value acc (p :: tl), [])
      rw [ih (acc - p.2) htl]
      simp [chain_value, hp]

theorem misc_expr_chain (n0 : Int) (ps : List (Token × Int))
    (h : ∀ p ∈ ps, p.1 = Token.Plus ∨ p.1 = Token.Minus) :
    Misc.compute_expr_run 1 (Token.Number n0 :: chain_tail ps) =
      Except.ok (chain_value n0 ps, []) := by
  rw [Misc.compute_expr_run_eq, Misc.compute_atom_run_number]
  exact misc_loop_chain ps n0 h

/-- C6: for every input whose token stream is a number followed by an
alternating plus/minus and number chain, both evaluators return the left-to-right
accumulation of the chain. -/
theorem add_sub_left_to_right :
    ∀ (s : String) (n0 : Int) (ps : List (Token × Int)),
      (∀ p ∈ ps, p.1 = Token.Plus ∨ p.1 = Token.Minus) →
      tokenize s.data = Token.Number n0 :: chain_tail ps →
      Misc.eval s = Except.ok (chain_value n0 ps) ∧
      EvalExpr.eval s = Except.ok (chain_value n0 ps) := by
  intro s n0 ps h htok
  have hm : Misc.eval s = Except.ok (chain_value n0 ps) := by
    unfold Misc.eval
    rw [htok, misc_expr_chain n0 ps h]
  refine ⟨hm, ?_⟩
  have hnp : Token.Power ∉ tokenize s.data := by
    rw [htok]
    intro hmem
    rcases List.mem_cons.mp hmem with he | he
    · simp at he
    · exact chain_tail_no_power ps h he
  have hag := eval_agree_no_power s hnp
  rw [hm] at hag
  cases he : EvalExpr.eval s with
  | error e =>
      rw [he] at hag
      simp [sameOutcome] at hag
  | ok a =>
      rw [he] at hag
      have ha : a = chain_value n0 ps := by simpa [sameOutcome] using hag
      rw [ha]

/-- Witness for C6 at "1 + 2 - 3 + 4 - 5": both evaluators return -1, the
left-to-right accumulation. -/
theorem add_sub_left_to_right_witness :
    Misc.eval "1 + 2 - 3 + 4 - 5" = Except.ok (-1) ∧
    EvalExpr.eval "1 + 2 - 3 + 4 - 5" = Except.ok (-1) := by
  have h := add_sub_left_to_right "1 + 2 - 3 + 4 - 5" 1
    [(Token.Plus, 2), (Token.Minus, 3), (Token.Plus, 4), (Token.Minus, 5)]
    (by decide)
    (by simp [tokenize, scan_number, scan_operator, is_numeric, rust_is_whitespace,
      chain_tail])
  have hv : chain_value 1
      [(Token.Plus, 2), (Token.Minus, 3), (Token.Plus, 4), (Token.Minus, 5)] = -1 := by
    decide
  rw [hv] at h
  exact h

/-- C3 counterexample: the claim names DivisionByZero, but on "1 + 2 / 0" the
src/misc evaluator produces the distinct kind InvalidNumber (the
DivisionByZero variant is declared yet never constructed). -/
theorem div_by_zero_kind_is_invalid_number :
    Misc.eval "1 + 2 / 0" = Except.error Misc.ExprError.InvalidNumber ∧
    Misc.ExprError.InvalidNumber ≠ Misc.ExprError.DivisionByZero := by
  refine ⟨?_, by decide⟩
  simp [Misc.eval, Misc.is_operator, Misc.next_min_prec, Misc.assoc, Misc.ASSOC_LEFT,
    Misc.ASSOC_RIGHT, Token.precedence, Token.compute, tokenize, scan_number,
    scan_operator, is_numeric, rust_is_whitespace]

/-- Witness for C2 (amended) at the concrete tail "7": the stream ends at $
and "5 $7" evaluates to 5. -/
theorem unknown_char_truncates_stream_witness :
    tokenize ['$'] = [] ∧
    Misc.eval (String.mk ['5', ' ', '$', '7']) = Except.ok 5 :=
  ⟨unknown_char_truncates_stream.1 [], unknown_char_truncates_stream.2 ['7']⟩
